import Mathlib

/-!
Contiguous FIFO buffer allocator (`src/main.c`)

A shallow embedding of the allocator of `src/main.c` and the properties of its
specification.

Modelling conventions.

* Pointers are 64-bit. A pointer into the caller's region (`uint8_t *`) is kept
  as its byte offset from the region base `cbuf->buffer`, a natural number below
  `SIZE_MODULUS = 2 ^ 64`; its address is `(buffer + offset) % 2 ^ 64`. A pointer
  sum `p + n` (lines 78, 79 and 97) is `ptr_add`, which wraps modulo `2 ^ 64`.
* The pointer returned by `circ_cont_buf_alloc` is an `Option Nat`: `none` when
  the caller receives `NULL`, that is on the three `return NULL` and also when
  the start pointer returned by a success path has address 0 (`ptr_at`);
  `some off` for the pointer at offset `off` otherwise.
* The arithmetic of `size_t` is unsigned and wraps modulo `2 ^ 64` (`size_sub`,
  the subtraction of line 66).
* The singly linked list hanging off `cbuf->first` is a `List meta`: `first`
  is `NULL` exactly when the list is `[]`, and the `next` field of a node is the
  rest of the list.
* The call `malloc` for the metadata is taken to succeed (the source checks it
  in `circ_cont_buf_init` only).
* Every API function receives the handle by pointer; the embedding passes the
  handle state explicitly and returns the state after the call.
-/

namespace ContBuf

/-- One node of the metadata list (`struct meta`): the pointers `start` and
`end` of one allocation, as byte offsets from the buffer base.  The `next`
pointer is the list structure. -/
structure meta where
  start : Nat
  end_ : Nat
deriving DecidableEq, Repr

/-- The handle (`struct cont_buf_handler`). `buffer` is the base address of the
caller's region, `first` the list of live records, oldest first. -/
structure cont_buf_handler where
  buffer : Nat
  buffer_size : Nat
  min_block_size : Nat
  first : List meta
deriving DecidableEq, Repr

/-- The number of values of a `size_t`. -/
def SIZE_MODULUS : Nat := 2 ^ 64

/-- The number of values of a `uint8_t`. -/
def UINT8_MODULUS : Nat := 2 ^ 8

/-- Unsigned `size_t` subtraction `a - b`, wrapping modulo `SIZE_MODULUS`. -/
def size_sub (a b : Nat) : Nat :=
  (a % SIZE_MODULUS + SIZE_MODULUS - b % SIZE_MODULUS) % SIZE_MODULUS

/-- The function `circ_cont_buf_init` (lines 22-41): a handle over the region with no
records. -/
def circ_cont_buf_init (buf size min_block_size : Nat) : cont_buf_handler :=
  { buffer := buf, buffer_size := size, min_block_size := min_block_size,
    first := [] }

/-- The walk of lines 59-63: starting at `current`, follow `next` while it is
not `NULL`; the result is the last node of the list. -/
def last_node : meta → List meta → meta
  | current, [] => current
  | _, next :: rest => last_node next rest

/-- The 64-bit pointer sum `p + n` of the pointer at offset `p` and the count
`n`, as an offset from the region base. -/
def ptr_add (p n : Nat) : Nat :=
  (p + n) % SIZE_MODULUS

/-- The pointer at offset `off` from the region base `buffer`, as a caller
receives it: `none` when its 64-bit address `buffer + off` is 0, so that the
pointer is `NULL`, and `some off` otherwise. -/
def ptr_at (buffer off : Nat) : Option Nat :=
  if (buffer + off) % SIZE_MODULUS = 0 then none else some off

/-- The function `circ_cont_buf_alloc` (lines 44-103). Returns the pointer the
caller receives (`none` for `NULL`) and the handle state after the call. -/
def circ_cont_buf_alloc (cbuf : cont_buf_handler) (len : Nat) :
    Option Nat × cont_buf_handler :=
  if len < cbuf.min_block_size then
    (none, cbuf)
  else
    match cbuf.first with
    | first :: rest =>
      let current := last_node first rest
      let len_free := size_sub cbuf.buffer_size current.end_
      if len_free < len then
        (none, cbuf)
      else
        let next_start := ptr_add current.end_ 1
        let next : meta := { start := next_start, end_ := ptr_add next_start len }
        (ptr_at cbuf.buffer next.start, { cbuf with first := cbuf.first ++ [next] })
    | [] =>
      if len > cbuf.buffer_size then
        (none, cbuf)
      else
        let node : meta := { start := 0, end_ := ptr_add 0 len }
        (ptr_at cbuf.buffer node.start, { cbuf with first := [node] })

/-- The function `circ_cont_buf_peek` (lines 106-116). `out` is the content of the caller's
`*buf` before the call; the result is the return code, the content of `*buf`
after the call and the handle state after the call.  The pointer written is
`first->start`, given as `some` of its offset. -/
def circ_cont_buf_peek (cbuf : cont_buf_handler) (out : Option Nat) :
    Int × Option Nat × cont_buf_handler :=
  match cbuf.first with
  | first :: _ => (0, some first.start, cbuf)
  | [] => (-1, out, cbuf)

/-- The function `circ_cont_buf_free` (lines 119-137): when there is a record,
make its successor the first record and return 0; otherwise return -1. -/
def circ_cont_buf_free (cbuf : cont_buf_handler) : Int × cont_buf_handler :=
  match cbuf.first with
  | _ :: next => (0, { cbuf with first := next })
  | [] => (-1, cbuf)

/-- One call of the mutating API. -/
inductive Call where
  | alloc (len : Nat)
  | free
deriving DecidableEq, Repr

/-- A call is well typed when its `size_t` argument fits a `size_t`. -/
def Call.WellTyped : Call → Prop
  | .alloc len => len < SIZE_MODULUS
  | .free => True

instance (c : Call) : Decidable c.WellTyped := by
  cases c <;> simp only [Call.WellTyped] <;> infer_instance

/-- The handle state after one call. -/
def step (cbuf : cont_buf_handler) : Call → cont_buf_handler
  | .alloc len => (circ_cont_buf_alloc cbuf len).2
  | .free => (circ_cont_buf_free cbuf).2

/-- The handle state after a sequence of calls, in order. -/
def run (cbuf : cont_buf_handler) (calls : List Call) : cont_buf_handler :=
  calls.foldl step cbuf

/-- The handle states the program can be in: those produced from
`circ_cont_buf_init` (with arguments that fit their C types) by a sequence of
well-typed `circ_cont_buf_alloc` / `circ_cont_buf_free` calls. -/
def Reachable (cbuf : cont_buf_handler) : Prop :=
  ∃ (buf size min_block_size : Nat) (calls : List Call),
    buf < SIZE_MODULUS ∧ size < SIZE_MODULUS ∧ min_block_size < UINT8_MODULUS ∧
    (∀ c ∈ calls, c.WellTyped) ∧
    cbuf = run (circ_cont_buf_init buf size min_block_size) calls

/-- The end offset of the tail (most recent) record, or `0` when there are no
records. -/
def tail_end (cbuf : cont_buf_handler) : Nat :=
  match cbuf.first.getLast? with
  | some r => r.end_
  | none => 0

/-- The precondition on the caller's region (spec 4.1): the base is not `NULL`
and the address one past the end of the region, `buf + size`, is a 64-bit
address. -/
def ValidRegion (buf size : Nat) : Prop :=
  0 < buf ∧ buf + size < SIZE_MODULUS

instance (buf size : Nat) : Decidable (ValidRegion buf size) := by
  unfold ValidRegion; infer_instance

/-- The ordering of two records of the list, the first one older: the older one
starts first, and ends no later than the newer one starts. -/
def Before (a b : meta) : Prop :=
  a.start < b.start ∧ a.end_ ≤ b.start

instance (a b : meta) : Decidable (Before a b) := by
  unfold Before; infer_instance

/-- Successive `circ_cont_buf_alloc` calls with the lengths `lens`: the pointers
returned, in call order, and the handle state after the last call. -/
def alloc_seq (cbuf : cont_buf_handler) : List Nat → List (Option Nat) × cont_buf_handler
  | [] => ([], cbuf)
  | len :: lens =>
    let r := circ_cont_buf_alloc cbuf len
    let rs := alloc_seq r.2 lens
    (r.1 :: rs.1, rs.2)

/-- The handle state after `n` successive `circ_cont_buf_free` calls. -/
def free_n (cbuf : cont_buf_handler) : Nat → cont_buf_handler
  | 0 => cbuf
  | n + 1 => free_n (circ_cont_buf_free cbuf).2 n

/-- The blocks handed out by a sequence of calls, in call order: one extent
`[s, s + len)` for every `circ_cont_buf_alloc` of the sequence that returned a
pointer `s`.  Blocks released later stay in this log. -/
def handed_out (cbuf : cont_buf_handler) : List Call → List meta
  | [] => []
  | .alloc len :: calls =>
    match (circ_cont_buf_alloc cbuf len).1 with
    | some s => { start := s, end_ := s + len } :: handed_out (circ_cont_buf_alloc cbuf len).2 calls
    | none => handed_out (circ_cont_buf_alloc cbuf len).2 calls
  | .free :: calls => handed_out (circ_cont_buf_free cbuf).2 calls

end ContBuf

namespace ContBuf

/-! ## Structural lemmas -/

theorem last_node_eq_getLast? (first : meta) (rest : List meta) :
    (first :: rest).getLast? = some (last_node first rest) := by
  induction rest generalizing first with
  | nil => rfl
  | cons next rest ih =>
    rw [List.getLast?_cons_cons]
    exact ih next

theorem size_sub_of_le {a b : Nat} (ha : a < SIZE_MODULUS) (hb : b ≤ a) :
    size_sub a b = a - b := by
  unfold size_sub SIZE_MODULUS at *
  omega

theorem ptr_add_of_lt {p n : Nat} (h : p + n < SIZE_MODULUS) : ptr_add p n = p + n :=
  Nat.mod_eq_of_lt h

theorem ptr_at_eq_some {buffer off s : Nat} (h : ptr_at buffer off = some s) : s = off := by
  unfold ptr_at at h
  split at h
  · cases h
  · cases h; rfl

theorem run_nil (cbuf : cont_buf_handler) : run cbuf [] = cbuf := rfl

theorem run_cons (cbuf : cont_buf_handler) (c : Call) (calls : List Call) :
    run cbuf (c :: calls) = run (step cbuf c) calls := rfl

theorem run_append (cbuf : cont_buf_handler) (xs ys : List Call) :
    run cbuf (xs ++ ys) = run (run cbuf xs) ys := by
  simp [run, List.foldl_append]

/-- What one `circ_cont_buf_alloc` does. Either it takes one of the three
`return NULL`: it returns `none` and leaves the handle alone. Or it appends one
record `r` and returns the pointer to `r.start`: then `len` is at least the
minimum, `r.end` is the pointer sum `r.start + len`, and `r.start` is 0 with
`len <= buffer_size` on an empty list, and the pointer sum `tail.end + 1` with
`len` not above the free length of line 66 otherwise. -/
theorem alloc_cases (cbuf : cont_buf_handler) (len : Nat) :
    ((circ_cont_buf_alloc cbuf len).1 = none ∧ (circ_cont_buf_alloc cbuf len).2 = cbuf) ∨
    (∃ r : meta,
      (circ_cont_buf_alloc cbuf len).1 = ptr_at cbuf.buffer r.start ∧
      (circ_cont_buf_alloc cbuf len).2 = { cbuf with first := cbuf.first ++ [r] } ∧
      cbuf.min_block_size ≤ len ∧
      r.end_ = ptr_add r.start len ∧
      (cbuf.first = [] → r.start = 0 ∧ len ≤ cbuf.buffer_size) ∧
      (∀ t, cbuf.first.getLast? = some t →
        r.start = ptr_add t.end_ 1 ∧ ¬ size_sub cbuf.buffer_size t.end_ < len)) := by
  unfold circ_cont_buf_alloc
  by_cases hmin : len < cbuf.min_block_size
  · left; simp [hmin]
  · simp only [hmin, if_false]
    cases hfirst : cbuf.first with
    | nil =>
      by_cases hbig : len > cbuf.buffer_size
      · left; simp [hbig]
      · right
        refine ⟨{ start := 0, end_ := ptr_add 0 len }, ?_⟩
        simp only [hbig, if_false, List.nil_append, true_and]
        refine ⟨by omega, fun _ => by omega, ?_⟩
        intro t ht
        simp at ht
    | cons first rest =>
      by_cases hfree : size_sub cbuf.buffer_size (last_node first rest).end_ < len
      · left; simp [hfree]
      · right
        refine ⟨{ start := ptr_add (last_node first rest).end_ 1,
                  end_ := ptr_add (ptr_add (last_node first rest).end_ 1) len }, ?_⟩
        simp only [hfree, if_false, true_and]
        refine ⟨by omega, ?_, ?_⟩
        · intro h; cases h
        · intro t ht
          rw [last_node_eq_getLast?] at ht
          cases ht
          exact ⟨rfl, hfree⟩

/-- No call writes `buffer`, `buffer_size` or `min_block_size`. -/
theorem step_fields (cbuf : cont_buf_handler) (c : Call) :
    (step cbuf c).buffer = cbuf.buffer ∧ (step cbuf c).buffer_size = cbuf.buffer_size ∧
    (step cbuf c).min_block_size = cbuf.min_block_size := by
  cases c with
  | alloc len =>
    simp only [step]
    rcases alloc_cases cbuf len with ⟨_, h2⟩ | ⟨r, _, h2, _⟩
    · rw [h2]; exact ⟨rfl, rfl, rfl⟩
    · rw [h2]; exact ⟨rfl, rfl, rfl⟩
  | free =>
    simp only [step, circ_cont_buf_free]
    cases cbuf.first <;> exact ⟨rfl, rfl, rfl⟩

theorem run_fields (calls : List Call) : ∀ cbuf : cont_buf_handler,
    (run cbuf calls).buffer = cbuf.buffer ∧ (run cbuf calls).buffer_size = cbuf.buffer_size ∧
    (run cbuf calls).min_block_size = cbuf.min_block_size := by
  induction calls with
  | nil => intro cbuf; exact ⟨rfl, rfl, rfl⟩
  | cons c calls ih =>
    intro cbuf
    rw [run_cons]
    obtain ⟨h1, h2, h3⟩ := ih (step cbuf c)
    obtain ⟨g1, g2, g3⟩ := step_fields cbuf c
    exact ⟨h1.trans g1, h2.trans g2, h3.trans g3⟩

end ContBuf

namespace ContBuf

/-! ## Capacity and bounds -/

/-- On a valid region, while the tail record ends inside the region, the
capacity check of line 69 is the one of the specification: a request of at
least the minimum size (and of at least one byte) is refused exactly when it
exceeds `buffer_size - tail_end`. -/
theorem alloc_none_iff_of_tail_in_bounds (cbuf : cont_buf_handler) (len : Nat)
    (hvalid : ValidRegion cbuf.buffer cbuf.buffer_size)
    (hin : tail_end cbuf ≤ cbuf.buffer_size)
    (hmin : cbuf.min_block_size ≤ len) (hpos : 0 < len) :
    (circ_cont_buf_alloc cbuf len).1 = none ↔ cbuf.buffer_size - tail_end cbuf < len := by
  obtain ⟨hbase, hfit⟩ := hvalid
  have hsize : cbuf.buffer_size < SIZE_MODULUS := by omega
  unfold circ_cont_buf_alloc
  have hmin2 : ¬ len < cbuf.min_block_size := by omega
  simp only [hmin2, if_false]
  cases hfirst : cbuf.first with
  | nil =>
    have : tail_end cbuf = 0 := by simp [tail_end, hfirst]
    rw [this]
    by_cases hbig : len > cbuf.buffer_size
    · simp [hbig]
    · have hnz : ¬ (cbuf.buffer + 0) % SIZE_MODULUS = 0 := by
        rw [Nat.add_zero, Nat.mod_eq_of_lt (by omega)]
        omega
      simp only [hbig, if_false, ptr_at, hnz]
      simp
      omega
  | cons first rest =>
    have ht : tail_end cbuf = (last_node first rest).end_ := by
      simp [tail_end, hfirst, last_node_eq_getLast?]
    rw [ht] at hin ⊢
    simp only [size_sub_of_le hsize hin]
    by_cases hfree : cbuf.buffer_size - (last_node first rest).end_ < len
    · simp [hfree]
    · have h1 : ptr_add (last_node first rest).end_ 1 = (last_node first rest).end_ + 1 :=
        ptr_add_of_lt (by omega)
      have hnz : ¬ (cbuf.buffer + ((last_node first rest).end_ + 1)) % SIZE_MODULUS = 0 := by
        rw [Nat.mod_eq_of_lt (by omega)]
        omega
      simp only [hfree, if_false, ptr_at, h1, hnz]
      simp

/-- C1 (capacity bound), the code at the failing input: on a 512-byte region
at address 4210816 with minimum 8, after `alloc 12` and `alloc 500` (a reachable
state) the tail record ends at offset 513; the request of 1000 bytes is at
least the minimum size and exceeds `capacity - 513`, and yet
`circ_cont_buf_alloc` hands out offset 514. -/
theorem capacity_bound_broken_after_exact_fit :
    Reachable (run (circ_cont_buf_init 4210816 512 8) [.alloc 12, .alloc 500]) ∧
    tail_end (run (circ_cont_buf_init 4210816 512 8) [.alloc 12, .alloc 500]) = 513 ∧
    (run (circ_cont_buf_init 4210816 512 8) [.alloc 12, .alloc 500]).min_block_size ≤ 1000 ∧
    ((1000 : Int) >
      ((run (circ_cont_buf_init 4210816 512 8) [.alloc 12, .alloc 500]).buffer_size : Int)
        - (tail_end (run (circ_cont_buf_init 4210816 512 8) [.alloc 12, .alloc 500]) : Int)) ∧
    (circ_cont_buf_alloc
      (run (circ_cont_buf_init 4210816 512 8) [.alloc 12, .alloc 500]) 1000).1
      = some 514 := by
  refine ⟨⟨4210816, 512, 8, [.alloc 12, .alloc 500],
    by decide, by decide, by decide, by decide, rfl⟩,
    by decide, by decide, by decide, by decide⟩

/-- C2 (in-bounds invariant), the code at the failing input: on a 512-byte
region at address 4210816 with minimum 8, `alloc 12` followed by `alloc 500`
reaches a state whose second record is `[13, 513)`: its end offset is beyond
`buffer_size = 512`. -/
theorem record_out_of_bounds_after_exact_fit :
    Reachable (run (circ_cont_buf_init 4210816 512 8) [.alloc 12, .alloc 500]) ∧
    (run (circ_cont_buf_init 4210816 512 8) [.alloc 12, .alloc 500]).first
      = [{ start := 0, end_ := 12 }, { start := 13, end_ := 513 }] ∧
    ¬ (∀ r ∈ (run (circ_cont_buf_init 4210816 512 8) [.alloc 12, .alloc 500]).first,
        0 ≤ r.start ∧
        r.end_ ≤ (run (circ_cont_buf_init 4210816 512 8) [.alloc 12, .alloc 500]).buffer_size)
    := by
  refine ⟨⟨4210816, 512, 8, [.alloc 12, .alloc 500],
    by decide, by decide, by decide, by decide, rfl⟩,
    by decide, by decide⟩

/-! ## Ordering of the records -/

/-- C3 (non-overlap, P1), the code at the failing input: on a 512-byte region at
address 4210816 with minimum 8, the calls `alloc 12`, `alloc 500`,
`alloc (2 ^ 64 - 1)` and `alloc 8` all succeed and reach a state with the
records `(0, 12)`, `(13, 513)`, `(514, 513)`, `(514, 522)`: the pointer sum of
line 79 has wrapped, the last two live records start at the same offset 514, and
the list is not ordered by `Before`. -/
theorem records_collide_after_wrap :
    Reachable (run (circ_cont_buf_init 4210816 512 8)
      [.alloc 12, .alloc 500, .alloc 18446744073709551615, .alloc 8]) ∧
    (run (circ_cont_buf_init 4210816 512 8)
      [.alloc 12, .alloc 500, .alloc 18446744073709551615, .alloc 8]).first
      = [{ start := 0, end_ := 12 }, { start := 13, end_ := 513 },
         { start := 514, end_ := 513 }, { start := 514, end_ := 522 }] ∧
    ¬ List.Pairwise Before (run (circ_cont_buf_init 4210816 512 8)
      [.alloc 12, .alloc 500, .alloc 18446744073709551615, .alloc 8]).first := by
  refine ⟨⟨4210816, 512, 8, [.alloc 12, .alloc 500, .alloc 18446744073709551615, .alloc 8],
    by decide, by decide, by decide, by decide, rfl⟩,
    by decide, by decide⟩

/-! ## Minimum granularity -/

/-- C4 (minimum granularity, P3): on every handle state, with or without
records and whatever space is free, `circ_cont_buf_alloc` with a length below
`min_block_size` returns `NULL`. -/
theorem alloc_below_min_fails (cbuf : cont_buf_handler) (len : Nat)
    (hlen : len < cbuf.min_block_size) :
    (circ_cont_buf_alloc cbuf len).1 = none := by
  simp [circ_cont_buf_alloc, hlen]

/-- Witness of C4: 7 bytes with minimum 8, on a handle with one record. -/
theorem alloc_below_min_fails_witness :
    (7 : Nat) < (run (circ_cont_buf_init 4210816 512 8) [.alloc 12]).min_block_size ∧
    (run (circ_cont_buf_init 4210816 512 8) [.alloc 12]).first ≠ [] ∧
    (circ_cont_buf_alloc (run (circ_cont_buf_init 4210816 512 8) [.alloc 12]) 7).1 = none :=
  ⟨by decide, by decide, alloc_below_min_fails _ 7 (by decide)⟩

end ContBuf

namespace ContBuf

/-! ## FIFO order -/

theorem peek_of_head (cbuf : cont_buf_handler) (out : Option Nat) (r : meta)
    (h : cbuf.first.head? = some r) :
    circ_cont_buf_peek cbuf out = (0, some r.start, cbuf) := by
  unfold circ_cont_buf_peek
  cases hfirst : cbuf.first with
  | nil => rw [hfirst] at h; cases h
  | cons a l =>
    rw [hfirst] at h
    cases h
    rfl

theorem peek_of_nil (cbuf : cont_buf_handler) (out : Option Nat)
    (h : cbuf.first = []) :
    circ_cont_buf_peek cbuf out = (-1, out, cbuf) := by
  unfold circ_cont_buf_peek
  rw [h]

theorem free_first (cbuf : cont_buf_handler) :
    (circ_cont_buf_free cbuf).2.first = cbuf.first.tail := by
  unfold circ_cont_buf_free
  cases hfirst : cbuf.first with
  | nil => simp [hfirst]
  | cons a l => simp

theorem free_n_first (n : Nat) : ∀ cbuf : cont_buf_handler,
    (free_n cbuf n).first = cbuf.first.drop n := by
  induction n with
  | zero => intro cbuf; rfl
  | succ n ih =>
    intro cbuf
    rw [free_n, ih, free_first]
    cases cbuf.first <;> simp

theorem alloc_seq_length (lens : List Nat) : ∀ cbuf : cont_buf_handler,
    (alloc_seq cbuf lens).1.length = lens.length := by
  induction lens with
  | nil => intro cbuf; rfl
  | cons len lens ih =>
    intro cbuf
    simp [alloc_seq, ih]

/-- When every call of an `alloc_seq` returned a pointer, the records appended
are, in order, records starting at the pointers returned. -/
theorem alloc_seq_success (lens : List Nat) : ∀ (cbuf : cont_buf_handler) (offs : List Nat),
    (alloc_seq cbuf lens).1 = offs.map some →
    ∃ recs : List meta, (alloc_seq cbuf lens).2.first = cbuf.first ++ recs ∧
      recs.map (fun r => r.start) = offs := by
  induction lens with
  | nil =>
    intro cbuf offs h
    refine ⟨[], by simp [alloc_seq], ?_⟩
    cases offs with
    | nil => rfl
    | cons o offs => simp [alloc_seq] at h
  | cons len lens ih =>
    intro cbuf offs h
    cases offs with
    | nil => simp [alloc_seq] at h
    | cons o offs =>
      simp only [alloc_seq, List.map_cons, List.cons.injEq] at h
      obtain ⟨ho, hrest⟩ := h
      obtain ⟨recs, hrecs, hmap⟩ := ih _ offs hrest
      rcases alloc_cases cbuf len with ⟨h1, _⟩ | ⟨r, h1, h2, _⟩
      · rw [h1] at ho; cases ho
      · rw [h1] at ho
        have hstart := ptr_at_eq_some ho
        refine ⟨r :: recs, ?_, by simp [hmap, hstart]⟩
        simp only [alloc_seq]
        rw [hrecs, h2]
        simp

/-- C5 (FIFO ordering, P4): take a fresh handle and `k` successive
`circ_cont_buf_alloc` calls that all succeed, returning the offsets
`offs = o_1, ..., o_k` (any `k`, also `k = 0`). For every `j < k` (that is,
every `j` with `offs[j] = o_(j+1)`), after `j` calls of `circ_cont_buf_free` the call
`circ_cont_buf_peek` returns 0 and writes `o_(j+1)`; after `k` calls of
`circ_cont_buf_free` it returns -1. -/
theorem fifo_order (buf size min_block_size : Nat) (lens offs : List Nat)
    (out : Option Nat)
    (hsucc : (alloc_seq (circ_cont_buf_init buf size min_block_size) lens).1
      = offs.map some) :
    offs.length = lens.length ∧
    (∀ j o, offs[j]? = some o →
      (circ_cont_buf_peek
        (free_n (alloc_seq (circ_cont_buf_init buf size min_block_size) lens).2 j) out).1 = 0 ∧
      (circ_cont_buf_peek
        (free_n (alloc_seq (circ_cont_buf_init buf size min_block_size) lens).2 j) out).2.1
          = some o) ∧
    (circ_cont_buf_peek
      (free_n (alloc_seq (circ_cont_buf_init buf size min_block_size) lens).2 lens.length)
        out).1 = -1 := by
  have hlen : offs.length = lens.length := by
    have := alloc_seq_length lens (circ_cont_buf_init buf size min_block_size)
    rw [hsucc, List.length_map] at this
    exact this
  obtain ⟨recs, hrecs, hmap⟩ := alloc_seq_success lens _ offs hsucc
  simp only [circ_cont_buf_init, List.nil_append] at hrecs
  simp only [circ_cont_buf_init]
  refine ⟨hlen, ?_, ?_⟩
  · intro j o hj
    have hr : ∃ r, recs[j]? = some r ∧ r.start = o := by
      rw [← hmap, List.getElem?_map] at hj
      cases hrj : recs[j]? with
      | none => rw [hrj] at hj; cases hj
      | some r =>
        rw [hrj] at hj
        simp only [Option.map_some', Option.some.injEq] at hj
        exact ⟨r, rfl, hj⟩
    obtain ⟨r, hrj, hro⟩ := hr
    have hhead : (free_n (alloc_seq
        { buffer := buf, buffer_size := size, min_block_size := min_block_size, first := [] }
        lens).2 j).first.head? = some r := by
      rw [free_n_first, hrecs, List.head?_drop]
      exact hrj
    rw [peek_of_head _ out r hhead, hro]
    exact ⟨rfl, rfl⟩
  · have hnil : (free_n (alloc_seq
        { buffer := buf, buffer_size := size, min_block_size := min_block_size, first := [] }
        lens).2 lens.length).first = [] := by
      rw [free_n_first, hrecs, List.drop_eq_nil_iff]
      have : recs.length = offs.length := by rw [← hmap, List.length_map]
      omega
    rw [peek_of_nil _ out hnil]

/-- Witness of C5, the demonstration: allocate 12 then 18 bytes; `peek` gives
block 1, after one `free` block 2, after two the empty signal. -/
theorem fifo_order_witness :
    (alloc_seq (circ_cont_buf_init 4210816 512 8) [12, 18]).1 = [some 0, some 13] ∧
    (circ_cont_buf_peek (alloc_seq (circ_cont_buf_init 4210816 512 8) [12, 18]).2 none).2.1
      = some 0 ∧
    (circ_cont_buf_peek
      (free_n (alloc_seq (circ_cont_buf_init 4210816 512 8) [12, 18]).2 1) none).2.1 = some 13 ∧
    (circ_cont_buf_peek
      (free_n (alloc_seq (circ_cont_buf_init 4210816 512 8) [12, 18]).2 2) none).1 = -1 :=
  have h := fifo_order 4210816 512 8 [12, 18] [0, 13] none (by decide)
  ⟨by decide, (h.2.1 0 0 rfl).2, (h.2.1 1 13 rfl).2, h.2.2⟩

end ContBuf

namespace ContBuf

/-! ## Requests above the capacity, and placement -/

/-- C6 (over-capacity requests), the code at the failing input: on a 512-byte
region at address 4210816 with minimum 8, after `alloc 12` and `alloc 500` (a reachable state) the
free length of line 66 is `512 - 513` as a `size_t`, that is `2 ^ 64 - 1`, and
`circ_cont_buf_alloc` with `len = 1000 > buffer_size` hands out offset 514. -/
theorem over_capacity_accepted_after_exact_fit :
    Reachable (run (circ_cont_buf_init 4210816 512 8) [.alloc 12, .alloc 500]) ∧
    (run (circ_cont_buf_init 4210816 512 8) [.alloc 12, .alloc 500]).buffer_size < 1000 ∧
    size_sub (run (circ_cont_buf_init 4210816 512 8) [.alloc 12, .alloc 500]).buffer_size 513
      = 2 ^ 64 - 1 ∧
    (circ_cont_buf_alloc (run (circ_cont_buf_init 4210816 512 8) [.alloc 12, .alloc 500]) 1000).1
      ≠ none := by
  refine ⟨⟨4210816, 512, 8, [.alloc 12, .alloc 500],
    by decide, by decide, by decide, by decide, rfl⟩,
    by decide, by decide, by decide⟩

/-- C7 (placement after the tail), the code at the failing input: on a
512-byte region at address 4210816 with minimum 8, after `alloc 12` the tail
record ends at offset 12;
`alloc 18` succeeds, returns offset 13 (not 12) and appends `[13, 31)` (not
`[12, 30)`). -/
theorem placement_leaves_gap :
    (circ_cont_buf_alloc (circ_cont_buf_init 4210816 512 8) 12).2.first
      = [{ start := 0, end_ := 12 }] ∧
    tail_end (circ_cont_buf_alloc (circ_cont_buf_init 4210816 512 8) 12).2 = 12 ∧
    (circ_cont_buf_alloc (circ_cont_buf_alloc (circ_cont_buf_init 4210816 512 8) 12).2 18).1
      = some 13 ∧
    (circ_cont_buf_alloc (circ_cont_buf_alloc (circ_cont_buf_init 4210816 512 8) 12).2 18).2.first
      = [{ start := 0, end_ := 12 }, { start := 13, end_ := 31 }] := by
  decide

/-- C8 (fresh handle and first placement): `circ_cont_buf_init buf size min`
has no records, `buffer = buf`, `buffer_size = size` and `min_block_size = min`;
and on every handle without records whose base is a non-null 64-bit pointer and
whose `buffer_size` is a `size_t`, `circ_cont_buf_alloc` with
`min_block_size <= len <= buffer_size` returns offset 0 and leaves the handle
with the single record `[0, len)`, the other fields unchanged. -/
theorem init_and_first_alloc (buf size min_block_size : Nat)
    (cbuf : cont_buf_handler) (len : Nat)
    (hempty : cbuf.first = [])
    (hbase : 0 < cbuf.buffer) (hptr : cbuf.buffer < SIZE_MODULUS)
    (hsize : cbuf.buffer_size < SIZE_MODULUS)
    (hmin : cbuf.min_block_size ≤ len) (hmax : len ≤ cbuf.buffer_size) :
    circ_cont_buf_init buf size min_block_size
      = { buffer := buf, buffer_size := size, min_block_size := min_block_size,
          first := [] } ∧
    circ_cont_buf_alloc cbuf len
      = (some 0, { cbuf with first := [{ start := 0, end_ := len }] }) := by
  refine ⟨rfl, ?_⟩
  have h1 : ¬ len < cbuf.min_block_size := by omega
  have h2 : ¬ len > cbuf.buffer_size := by omega
  have h3 : ptr_add 0 len = len := by
    rw [ptr_add_of_lt (by omega)]; omega
  have h4 : ptr_at cbuf.buffer 0 = some 0 := by
    unfold ptr_at
    rw [Nat.add_zero, Nat.mod_eq_of_lt hptr]
    simp
    omega
  simp [circ_cont_buf_alloc, hempty, h1, h2, h3, h4]

/-- Witness of C8: the first allocation of the demonstration. -/
theorem init_and_first_alloc_witness :
    (circ_cont_buf_init 4210816 512 8).first = [] ∧
    circ_cont_buf_alloc (circ_cont_buf_init 4210816 512 8) 12
      = (some 0, { buffer := 4210816, buffer_size := 512, min_block_size := 8,
                   first := [{ start := 0, end_ := 12 }] }) :=
  ⟨rfl, (init_and_first_alloc 4210816 512 8 (circ_cont_buf_init 4210816 512 8) 12 rfl
    (by decide) (by decide) (by decide) (by decide) (by decide)).2⟩

/-! ## Empty handle -/

/-- C9 (empty signals, P5): on every handle without records,
`circ_cont_buf_peek` returns -1, leaves the caller's `*buf` as it was and does
not change the handle; `circ_cont_buf_free` returns -1 and leaves the whole
handle state unchanged. -/
theorem empty_signals (cbuf : cont_buf_handler) (out : Option Nat)
    (hempty : cbuf.first = []) :
    circ_cont_buf_peek cbuf out = (-1, out, cbuf) ∧
    circ_cont_buf_free cbuf = (-1, cbuf) := by
  simp [circ_cont_buf_peek, circ_cont_buf_free, hempty]

/-- Witness of C9 on a fresh handle. -/
theorem empty_signals_witness :
    circ_cont_buf_peek (circ_cont_buf_init 4210816 512 8) (some 7)
      = (-1, some 7, circ_cont_buf_init 4210816 512 8) ∧
    circ_cont_buf_free (circ_cont_buf_init 4210816 512 8)
      = (-1, circ_cont_buf_init 4210816 512 8) :=
  empty_signals (circ_cont_buf_init 4210816 512 8) (some 7) rfl

end ContBuf

namespace ContBuf

/-! ## Reuse of released space -/

theorem tail_end_append (cbuf : cont_buf_handler) (l : List meta) (r : meta) :
    tail_end { cbuf with first := l ++ [r] } = r.end_ := by
  simp [tail_end]

theorem tail_end_of_nil {cbuf : cont_buf_handler} (h : cbuf.first = []) :
    tail_end cbuf = 0 := by
  simp [tail_end, h]

/-- One `circ_cont_buf_alloc` on a handle whose tail record ends inside the
region, when `buffer_size + 1` is a 64-bit value: no pointer sum wraps, so a
record appended is `[start, start + len)`, with `start = 0` on an empty list and
`start = tail_end + 1` otherwise. -/
theorem alloc_cases_in_bounds (cbuf : cont_buf_handler) (len : Nat)
    (hsz : cbuf.buffer_size + 1 < SIZE_MODULUS)
    (hin : tail_end cbuf ≤ cbuf.buffer_size) :
    ((circ_cont_buf_alloc cbuf len).1 = none ∧ (circ_cont_buf_alloc cbuf len).2 = cbuf) ∨
    (∃ r : meta,
      (circ_cont_buf_alloc cbuf len).1 = ptr_at cbuf.buffer r.start ∧
      (circ_cont_buf_alloc cbuf len).2 = { cbuf with first := cbuf.first ++ [r] } ∧
      r.end_ = r.start + len ∧
      (cbuf.first = [] → r.start = 0) ∧
      (cbuf.first ≠ [] → r.start = tail_end cbuf + 1)) := by
  rcases alloc_cases cbuf len with h | ⟨r, h1, h2, _, hend, hnil, hlast⟩
  · exact Or.inl h
  · right
    refine ⟨r, h1, h2, ?_, fun h => (hnil h).1, ?_⟩
    · cases hl : cbuf.first.getLast? with
      | none =>
        obtain ⟨hs, hle⟩ := hnil (List.getLast?_eq_none_iff.mp hl)
        rw [hend, hs, ptr_add_of_lt (by omega)]
      | some t =>
        obtain ⟨hs, hfree⟩ := hlast t hl
        have ht : tail_end cbuf = t.end_ := by simp [tail_end, hl]
        rw [ht] at hin
        rw [size_sub_of_le (by omega) hin] at hfree
        rw [ptr_add_of_lt (by omega)] at hs
        rw [hend, hs, ptr_add_of_lt (by omega)]
    · intro hne
      cases hl : cbuf.first.getLast? with
      | none => exact absurd (List.getLast?_eq_none_iff.mp hl) hne
      | some t =>
        obtain ⟨hs, _⟩ := hlast t hl
        have ht : tail_end cbuf = t.end_ := by simp [tail_end, hl]
        rw [ht] at hin ⊢
        rw [ptr_add_of_lt (by omega)] at hs
        exact hs

/-- A call on a handle whose tail record ends inside the region, that starts
and ends with a non-empty list, does not move the end of the tail record
backwards. -/
theorem tail_end_le_step (cbuf : cont_buf_handler) (c : Call)
    (hsz : cbuf.buffer_size + 1 < SIZE_MODULUS)
    (hin : tail_end cbuf ≤ cbuf.buffer_size)
    (hafter : (step cbuf c).first ≠ []) (hbefore : cbuf.first ≠ []) :
    tail_end cbuf ≤ tail_end (step cbuf c) := by
  cases c with
  | alloc len =>
    simp only [step]
    rcases alloc_cases_in_bounds cbuf len hsz hin with ⟨_, h2⟩ | ⟨r, _, h2, hend, _, hs⟩
    · rw [h2]
    · rw [h2, tail_end_append, hend, hs hbefore]
      omega
  | free =>
    simp only [step] at hafter ⊢
    rw [free_first] at hafter
    unfold tail_end
    rw [free_first]
    cases hfirst : cbuf.first with
    | nil => exact absurd hfirst hbefore
    | cons a l =>
      rw [hfirst] at hafter
      cases l with
      | nil => exact absurd rfl hafter
      | cons b l => simp [List.getLast?_cons_cons]

theorem tail_end_le_run (calls : List Call) : ∀ cbuf : cont_buf_handler,
    cbuf.buffer_size + 1 < SIZE_MODULUS →
    (∀ n, n ≤ calls.length → (run cbuf (calls.take n)).first ≠ []) →
    (∀ n, n ≤ calls.length → tail_end (run cbuf (calls.take n)) ≤ cbuf.buffer_size) →
    tail_end cbuf ≤ tail_end (run cbuf calls) := by
  induction calls with
  | nil => intro cbuf _ _ _; exact Nat.le_refl _
  | cons c calls ih =>
    intro cbuf hsz hlive hin
    have hsame : (step cbuf c).buffer_size = cbuf.buffer_size := (step_fields cbuf c).2.1
    have h0 : cbuf.first ≠ [] := hlive 0 (Nat.zero_le _)
    have i0 : tail_end cbuf ≤ cbuf.buffer_size := hin 0 (Nat.zero_le _)
    have h1 : (step cbuf c).first ≠ [] := by
      have := hlive 1 (by simp)
      simpa [run] using this
    have hrest : ∀ n, n ≤ calls.length → (run (step cbuf c) (calls.take n)).first ≠ [] := by
      intro n hn
      have := hlive (n + 1) (by simp [hn])
      simpa [run] using this
    have irest : ∀ n, n ≤ calls.length →
        tail_end (run (step cbuf c) (calls.take n)) ≤ (step cbuf c).buffer_size := by
      intro n hn
      have := hin (n + 1) (by simp [hn])
      rw [hsame]
      simpa [run] using this
    rw [run_cons]
    exact Nat.le_trans (tail_end_le_step cbuf c hsz i0 h1 h0)
      (ih _ (by rw [hsame]; exact hsz) hrest irest)

/-- C10 (freed space is never reused), refuted as stated: on a 512-byte region
at address 4210816 with minimum 8, the calls `alloc 12`, `free`, `alloc 12` hand
out `[0, 12)` twice, so the second block starts below the end of the first,
released, block. -/
theorem freed_space_reused_once_empty :
    handed_out (circ_cont_buf_init 4210816 512 8) [.alloc 12, .free, .alloc 12]
      = [{ start := 0, end_ := 12 }, { start := 0, end_ := 12 }] ∧
    ¬ List.Pairwise (fun a b => a.end_ ≤ b.start)
      (handed_out (circ_cont_buf_init 4210816 512 8) [.alloc 12, .free, .alloc 12]) := by
  decide

/-- C10 as amended: take a fresh handle over a valid region and run any calls
`pre`, after which the tail record ends inside the region; let a
`circ_cont_buf_alloc` of `l1` bytes return offset `s1`, run any calls `mid`
(allocations and releases) during which the record list is never empty and the
tail record ends inside the region, and let a further `circ_cont_buf_alloc` of
`l2` bytes return offset `s2`. Then `s2` is at least the end offset `s1 + l1` of
the earlier block, whether that block has been released in between or not. And
whenever the record list is empty, a successful `circ_cont_buf_alloc` restarts
placement at offset 0. -/
theorem later_block_after_earlier_while_live (buf size min_block_size : Nat)
    (pre mid : List Call) (l1 l2 s1 s2 : Nat)
    (hvalid : ValidRegion buf size)
    (hpre : tail_end (run (circ_cont_buf_init buf size min_block_size) pre) ≤ size)
    (h1 : (circ_cont_buf_alloc (run (circ_cont_buf_init buf size min_block_size) pre) l1).1
      = some s1)
    (hlive : ∀ n, n ≤ mid.length →
      (run (circ_cont_buf_alloc (run (circ_cont_buf_init buf size min_block_size) pre) l1).2
        (mid.take n)).first ≠ [])
    (hin : ∀ n, n ≤ mid.length →
      tail_end (run
        (circ_cont_buf_alloc (run (circ_cont_buf_init buf size min_block_size) pre) l1).2
        (mid.take n)) ≤ size)
    (h2 : (circ_cont_buf_alloc
      (run (circ_cont_buf_alloc (run (circ_cont_buf_init buf size min_block_size) pre) l1).2
        mid) l2).1 = some s2) :
    s1 + l1 ≤ s2 ∧
    (∀ (calls : List Call) (len s : Nat),
      (run (circ_cont_buf_init buf size min_block_size) calls).first = [] →
      (circ_cont_buf_alloc (run (circ_cont_buf_init buf size min_block_size) calls) len).1
        = some s →
      s = 0) := by
  obtain ⟨hbase, hfit⟩ := hvalid
  have hsize : ∀ calls : List Call,
      (run (circ_cont_buf_init buf size min_block_size) calls).buffer_size = size :=
    fun calls => (run_fields calls _).2.1
  constructor
  · have hA := hsize pre
    generalize run (circ_cont_buf_init buf size min_block_size) pre = A
      at hA hpre h1 hlive hin h2
    have hszA : A.buffer_size + 1 < SIZE_MODULUS := by omega
    have hend : tail_end (circ_cont_buf_alloc A l1).2 = s1 + l1 ∧
        (circ_cont_buf_alloc A l1).2.buffer_size = size := by
      rcases alloc_cases_in_bounds A l1 hszA (by omega) with ⟨e1, _⟩ | ⟨r, e1, e2, e3, _, _⟩
      · rw [e1] at h1; cases h1
      · rw [e1] at h1
        have := ptr_at_eq_some h1
        rw [e2, tail_end_append, e3, this]
        exact ⟨rfl, hA⟩
    obtain ⟨hend, hA2⟩ := hend
    generalize (circ_cont_buf_alloc A l1).2 = A2 at hend hA2 hlive hin h2
    have hmono := tail_end_le_run mid A2 (by omega) hlive (by rw [hA2]; exact hin)
    have hne := hlive mid.length (Nat.le_refl _)
    have hinB := hin mid.length (Nat.le_refl _)
    rw [List.take_length] at hne hinB
    have hB : (run A2 mid).buffer_size = size := (run_fields mid A2).2.1.trans hA2
    generalize run A2 mid = B at hmono hne hinB hB h2
    rcases alloc_cases_in_bounds B l2 (by omega) (by omega) with ⟨e1, _⟩ | ⟨r, e1, _, _, _, e5⟩
    · rw [e1] at h2; cases h2
    · rw [e1] at h2
      have := ptr_at_eq_some h2
      have := e5 hne
      omega
  · intro calls len s hnil hs
    rcases alloc_cases (run (circ_cont_buf_init buf size min_block_size) calls) len with
      ⟨e1, _⟩ | ⟨r, e1, _, _, _, e5, _⟩
    · rw [e1] at hs; cases hs
    · rw [e1] at hs
      rw [ptr_at_eq_some hs]
      exact (e5 hnil).1

/-- Witness of the amended C10: block `[0, 12)` is released while `[13, 31)`
stays live, and the next block starts at 32; and after `alloc 12`, `free` the
list is empty and the next block starts at 0 again. -/
theorem later_block_after_earlier_while_live_witness :
    (circ_cont_buf_alloc (run (circ_cont_buf_init 4210816 512 8) []) 12).1 = some 0 ∧
    (run (circ_cont_buf_alloc (run (circ_cont_buf_init 4210816 512 8) []) 12).2
      [.alloc 18, .free]).first = [{ start := 13, end_ := 31 }] ∧
    (circ_cont_buf_alloc
      (run (circ_cont_buf_alloc (run (circ_cont_buf_init 4210816 512 8) []) 12).2
        [.alloc 18, .free]) 20).1 = some 32 ∧
    0 + 12 ≤ 32 ∧
    (circ_cont_buf_alloc (run (circ_cont_buf_init 4210816 512 8) [.alloc 12, .free]) 12).1
      = some 0 :=
  ⟨by decide, by decide, by decide,
    (later_block_after_earlier_while_live 4210816 512 8 [] [.alloc 18, .free] 12 20 0 32
      (by decide) (by decide) (by decide) (by decide) (by decide) (by decide)).1,
    by decide⟩

end ContBuf

namespace ContBuf

/-! ## Frame of release and peek -/

/-- C11 (release pops exactly the head): on every handle with at least one live
record, `circ_cont_buf_free` returns 0 and leaves the handle with the same
`buffer`, `buffer_size` and `min_block_size` and with the old record list minus
its first record; the records left are the old ones from the second on,
unchanged and in the same order, so the new head is the old second record, if
any. -/
theorem free_pops_head (cbuf : cont_buf_handler) (hlive : cbuf.first ≠ []) :
    circ_cont_buf_free cbuf = (0, { cbuf with first := cbuf.first.tail }) ∧
    (circ_cont_buf_free cbuf).2.first = cbuf.first.drop 1 ∧
    (circ_cont_buf_free cbuf).2.first.head? = cbuf.first[1]? ∧
    (circ_cont_buf_free cbuf).2.buffer = cbuf.buffer ∧
    (circ_cont_buf_free cbuf).2.buffer_size = cbuf.buffer_size ∧
    (circ_cont_buf_free cbuf).2.min_block_size = cbuf.min_block_size := by
  unfold circ_cont_buf_free
  cases hfirst : cbuf.first with
  | nil => exact absurd hfirst hlive
  | cons a l =>
    refine ⟨by simp, by simp, ?_, rfl, rfl, rfl⟩
    cases l <;> simp

/-- Witness of C11: after `alloc 12` and `alloc 18`, one `free` leaves the
second record `[13, 31)` alone. -/
theorem free_pops_head_witness :
    (run (circ_cont_buf_init 4210816 512 8) [.alloc 12, .alloc 18]).first
      = [{ start := 0, end_ := 12 }, { start := 13, end_ := 31 }] ∧
    circ_cont_buf_free (run (circ_cont_buf_init 4210816 512 8) [.alloc 12, .alloc 18])
      = (0, { buffer := 4210816, buffer_size := 512, min_block_size := 8,
              first := [{ start := 13, end_ := 31 }] }) :=
  ⟨by decide,
    (free_pops_head (run (circ_cont_buf_init 4210816 512 8) [.alloc 12, .alloc 18])
      (by decide)).1⟩

/-- C12 (peek is a pure query of the head): on every handle whose first
(oldest) record is `r`, `circ_cont_buf_peek` returns 0 and writes `r.start`;
on every handle it returns the handle state unchanged, and a second call right
after the first one gives the same return code, the same content of `*buf` and
the same handle state. -/
theorem peek_pure_query (cbuf : cont_buf_handler) (out : Option Nat) :
    (∀ r, cbuf.first.head? = some r →
      (circ_cont_buf_peek cbuf out).1 = 0 ∧
      (circ_cont_buf_peek cbuf out).2.1 = some r.start) ∧
    (circ_cont_buf_peek cbuf out).2.2 = cbuf ∧
    circ_cont_buf_peek (circ_cont_buf_peek cbuf out).2.2 (circ_cont_buf_peek cbuf out).2.1
      = circ_cont_buf_peek cbuf out := by
  unfold circ_cont_buf_peek
  cases hfirst : cbuf.first with
  | nil => simp [hfirst]
  | cons a l => simp [hfirst]

/-- Witness of C12 on the two records of the demonstration. -/
theorem peek_pure_query_witness :
    (run (circ_cont_buf_init 4210816 512 8) [.alloc 12, .alloc 18]).first.head?
      = some { start := 0, end_ := 12 } ∧
    (circ_cont_buf_peek (run (circ_cont_buf_init 4210816 512 8) [.alloc 12, .alloc 18]) none).1
      = 0 ∧
    (circ_cont_buf_peek (run (circ_cont_buf_init 4210816 512 8) [.alloc 12, .alloc 18]) none).2.1
      = some 0 :=
  ⟨by decide,
    (peek_pure_query (run (circ_cont_buf_init 4210816 512 8) [.alloc 12, .alloc 18]) none).1
      { start := 0, end_ := 12 } (by decide)⟩

end ContBuf

namespace ContBuf

/-! ## Shape of a successful and of a failed allocation -/

/-- C13 (a successful allocation appends one record of the requested length),
the code at the failing input: on a 512-byte region at address 4210816 with
minimum 8, after `alloc 12` and `alloc 500` (a reachable state) the call
`alloc (2 ^ 64 - 1)` succeeds, returns offset 514 and appends the record
`(514, 513)`: the pointer sum of line 79 has wrapped, `end - start` is -1 and not
the requested length, and the state reached holds a live record shorter than
`min_block_size`. -/
theorem wrapped_record_not_of_requested_length :
    Reachable (run (circ_cont_buf_init 4210816 512 8) [.alloc 12, .alloc 500]) ∧
    (circ_cont_buf_alloc (run (circ_cont_buf_init 4210816 512 8) [.alloc 12, .alloc 500])
      18446744073709551615).1 = some 514 ∧
    (circ_cont_buf_alloc (run (circ_cont_buf_init 4210816 512 8) [.alloc 12, .alloc 500])
      18446744073709551615).2.first
      = (run (circ_cont_buf_init 4210816 512 8) [.alloc 12, .alloc 500]).first
        ++ [{ start := 514, end_ := 513 }] ∧
    (513 : Int) - 514 ≠ 18446744073709551615 ∧
    Reachable (run (circ_cont_buf_init 4210816 512 8)
      [.alloc 12, .alloc 500, .alloc 18446744073709551615]) ∧
    ¬ (∀ r ∈ (run (circ_cont_buf_init 4210816 512 8)
        [.alloc 12, .alloc 500, .alloc 18446744073709551615]).first,
      (run (circ_cont_buf_init 4210816 512 8)
        [.alloc 12, .alloc 500, .alloc 18446744073709551615]).min_block_size
          ≤ r.end_ - r.start) := by
  refine ⟨⟨4210816, 512, 8, [.alloc 12, .alloc 500],
      by decide, by decide, by decide, by decide, rfl⟩,
    by decide, by decide, by decide,
    ⟨4210816, 512, 8, [.alloc 12, .alloc 500, .alloc 18446744073709551615],
      by decide, by decide, by decide, by decide, rfl⟩,
    by decide⟩

/-- The three `return NULL` of `circ_cont_buf_alloc` (lines 49, 71 and 90) leave
the handle state as it was: a call that does not append a record changes
nothing. -/
theorem alloc_refusal_atomic (cbuf : cont_buf_handler) (len : Nat)
    (hsame : (circ_cont_buf_alloc cbuf len).2.first.length = cbuf.first.length) :
    (circ_cont_buf_alloc cbuf len).1 = none ∧ (circ_cont_buf_alloc cbuf len).2 = cbuf := by
  rcases alloc_cases cbuf len with h | ⟨r, _, h2, _⟩
  · exact h
  · rw [h2] at hsame
    simp at hsame

/-- C16 (a failed allocation is atomic), the code at the failing input: on a
512-byte region at address 4210816 with minimum 8, after `alloc 12`, `alloc 500`
and `alloc (2 ^ 64 - 4210816 - 515)` (a reachable state), the call `alloc 8`
passes the check of line 69, appends a record whose start has address
`4210816 + (2 ^ 64 - 4210816) = 2 ^ 64`, that is 0, and returns that pointer:
the caller receives `NULL` and the record list has grown. -/
theorem null_returned_with_record_appended :
    Reachable (run (circ_cont_buf_init 4210816 512 8)
      [.alloc 12, .alloc 500, .alloc 18446744073705340285]) ∧
    (circ_cont_buf_alloc (run (circ_cont_buf_init 4210816 512 8)
      [.alloc 12, .alloc 500, .alloc 18446744073705340285]) 8).1 = none ∧
    (circ_cont_buf_alloc (run (circ_cont_buf_init 4210816 512 8)
      [.alloc 12, .alloc 500, .alloc 18446744073705340285]) 8).2.first
      = (run (circ_cont_buf_init 4210816 512 8)
          [.alloc 12, .alloc 500, .alloc 18446744073705340285]).first
        ++ [{ start := 18446744073705340800, end_ := 18446744073705340808 }] ∧
    (4210816 + 18446744073705340800) % SIZE_MODULUS = 0 ∧
    (circ_cont_buf_alloc (run (circ_cont_buf_init 4210816 512 8)
      [.alloc 12, .alloc 500, .alloc 18446744073705340285]) 8).2
      ≠ run (circ_cont_buf_init 4210816 512 8)
          [.alloc 12, .alloc 500, .alloc 18446744073705340285] := by
  refine ⟨⟨4210816, 512, 8, [.alloc 12, .alloc 500, .alloc 18446744073705340285],
      by decide, by decide, by decide, by decide, rfl⟩,
    by decide, by decide, by decide, by decide⟩

end ContBuf

namespace ContBuf

/-! ## Release and allocation, and the gap between neighbours -/

/-- C14 (release creates no allocation capacity while other blocks are live):
on every handle state with at least two live records (reachable or not) and
for every `len`, `circ_cont_buf_alloc` after one `circ_cont_buf_free` returns
what it returns without the free (`NULL`, or the same start offset), and
free-then-alloc ends in the same handle state, so the same record list, as
alloc-then-free. -/
theorem free_then_alloc_same_as_alloc (cbuf : cont_buf_handler) (len : Nat)
    (htwo : 2 ≤ cbuf.first.length) :
    (circ_cont_buf_alloc (circ_cont_buf_free cbuf).2 len).1
      = (circ_cont_buf_alloc cbuf len).1 ∧
    (circ_cont_buf_alloc (circ_cont_buf_free cbuf).2 len).2
      = (circ_cont_buf_free (circ_cont_buf_alloc cbuf len).2).2 ∧
    (circ_cont_buf_alloc (circ_cont_buf_free cbuf).2 len).2.first
      = (circ_cont_buf_free (circ_cont_buf_alloc cbuf len).2).2.first := by
  obtain ⟨buffer, buffer_size, min_block_size, first⟩ := cbuf
  cases first with
  | nil => simp at htwo
  | cons a l =>
    cases l with
    | nil => simp at htwo
    | cons b l =>
      by_cases hmin : len < min_block_size
      · simp [circ_cont_buf_alloc, circ_cont_buf_free, hmin]
      · by_cases hfree : size_sub buffer_size (last_node b l).end_ < len
        · simp [circ_cont_buf_alloc, circ_cont_buf_free, last_node, hmin, hfree]
        · simp [circ_cont_buf_alloc, circ_cont_buf_free, last_node, hmin, hfree]

/-- Witness of C14: with the two records of the demonstration live, 20 bytes
are placed at offset 32 with or without a release before, and 1000 bytes are
refused with or without it. -/
theorem free_then_alloc_same_as_alloc_witness :
    (circ_cont_buf_alloc (run (circ_cont_buf_init 4210816 512 8) [.alloc 12, .alloc 18]) 20).1
      = some 32 ∧
    (circ_cont_buf_alloc
      (circ_cont_buf_free (run (circ_cont_buf_init 4210816 512 8) [.alloc 12, .alloc 18])).2 20).1
      = (circ_cont_buf_alloc
          (run (circ_cont_buf_init 4210816 512 8) [.alloc 12, .alloc 18]) 20).1 ∧
    (circ_cont_buf_alloc
      (circ_cont_buf_free (run (circ_cont_buf_init 4210816 512 8) [.alloc 12, .alloc 18])).2 1000).1
      = (circ_cont_buf_alloc
          (run (circ_cont_buf_init 4210816 512 8) [.alloc 12, .alloc 18]) 1000).1 :=
  ⟨by decide,
    (free_then_alloc_same_as_alloc
      (run (circ_cont_buf_init 4210816 512 8) [.alloc 12, .alloc 18]) 20 (by decide)).1,
    (free_then_alloc_same_as_alloc
      (run (circ_cont_buf_init 4210816 512 8) [.alloc 12, .alloc 18]) 1000 (by decide)).1⟩

end ContBuf
